import Mathlib

/-!
Shallow embedding of `pics2html.py` (danieljakots/pics2html), a static
photo-gallery generator.  Python strings are modelled as `List Char`
(sequences of code points), Python ints as `Nat`/`Int`, and the exact
arithmetic of the image-size computation as `ℚ` with explicit truncation.
Each pure function of the source is translated to a Lean definition of the
same name; the stateful parts (file writes) are modelled by returning the
data that would be written.
-/

/-- `SMALL_IMAGE_WORD = "small"` (source line 18). -/
def SMALL_IMAGE_WORD : List Char := ['s', 'm', 'a', 'l', 'l']

/-- `MAX_HORIZONTAL_SIZE = 800` (source line 19). -/
def MAX_HORIZONTAL_SIZE : Nat := 800

/-- `PAGINATION = 10` (source line 20). -/
def PAGINATION : Nat := 10

/-! ### Python string primitives, modelled on `List Char` -/

/-- Model of `s.replace(c, "")` for a single-character pattern `c`:
removes every occurrence of the character. -/
def removeChar (c : Char) : List Char → List Char
  | [] => []
  | a :: rest => if a = c then removeChar c rest else a :: removeChar c rest

/-- Model of Python string comparison `s < t`: lexicographic on code
points, with a proper prefix smaller than the longer string. -/
def pyStrLt : List Char → List Char → Bool
  | [], [] => false
  | [], _ :: _ => true
  | _ :: _, [] => false
  | a :: as, b :: bs => if a < b then true else if a = b then pyStrLt as bs else false

/-- `needle` occurs at the start of `hay`. -/
def startsWith : List Char → List Char → Bool
  | [], _ => true
  | _ :: _, [] => false
  | a :: as, b :: bs => a = b && startsWith as bs

/-- Model of Python's substring test `needle in hay`. -/
def containsSub (needle : List Char) : List Char → Bool
  | [] => startsWith needle []
  | b :: bs => startsWith needle (b :: bs) || containsSub needle bs

/-- Model of Python `s.rpartition(sep)` for a single-character separator:
splits at the LAST occurrence of `sep`, returning `(before, sep, after)`;
when `sep` does not occur it returns `("", "", s)`. -/
def pyRpartition (sep : Char) : List Char → List Char × List Char × List Char
  | [] => ([], [], [])
  | c :: rest =>
      if sep ∈ rest then
        ((pyRpartition sep rest).1.cons c, (pyRpartition sep rest).2.1,
          (pyRpartition sep rest).2.2)
      else if c = sep then ([], [sep], rest)
      else ([], [], c :: rest)

/-- Model of Python `s.partition(sep)` for a single-character separator:
splits at the FIRST occurrence of `sep`, returning `(before, sep, after)`;
when `sep` does not occur it returns `(s, "", "")`. -/
def pyPartition (sep : Char) : List Char → List Char × List Char × List Char
  | [] => ([], [], [])
  | c :: rest =>
      if c = sep then ([], [sep], rest)
      else if sep ∈ rest then
        ((pyPartition sep rest).1.cons c, (pyPartition sep rest).2.1,
          (pyPartition sep rest).2.2)
      else (c :: rest, [], [])

/-! ### Pagination (source lines 169-176)

`create_pagination` appends `pictures[offset : offset + PAGINATION]` for
`len(pictures) // PAGINATION + 1` iterations, advancing `offset` by
`PAGINATION` each time.  The loop is modelled by recursion on the number
of remaining iterations; the Python slice `l[o : o + P]` is
`(l.drop o).take P`. -/

/-- The loop body of `create_pagination`: `k` remaining iterations,
current `offset`. -/
def paginationLoop (P : Nat) (pictures : List α) : Nat → Nat → List (List α)
  | _, 0 => []
  | offset, k + 1 =>
      (pictures.drop offset).take P :: paginationLoop P pictures (offset + P) k

/-- `create_pagination` with the page size made explicit (the source reads
the global constant `PAGINATION`). -/
def create_pagination_with (P : Nat) (pictures : List α) : List (List α) :=
  paginationLoop P pictures 0 (pictures.length / P + 1)

/-- `create_pagination(pictures)` exactly as in the source, with the
global `PAGINATION = 10`. -/
def create_pagination (pictures : List α) : List (List α) :=
  create_pagination_with PAGINATION pictures

theorem paginationLoop_length (P : Nat) (l : List α) (offset k : Nat) :
    (paginationLoop P l offset k).length = k := by
  induction k generalizing offset with
  | zero => rfl
  | succ k ih => simp [paginationLoop, ih]

theorem paginationLoop_flatten (P : Nat) (l : List α) (offset k : Nat) :
    (paginationLoop P l offset k).flatten = (l.drop offset).take (k * P) := by
  induction k generalizing offset with
  | zero => simp [paginationLoop]
  | succ k ih =>
      simp only [paginationLoop, List.flatten_cons, ih]
      rw [Nat.succ_mul, Nat.add_comm (k * P) P, List.take_add, List.drop_drop]

theorem paginationLoop_getElem? (P : Nat) (l : List α) (offset k i : Nat)
    (hi : i < k) :
    (paginationLoop P l offset k)[i]? = some ((l.drop (offset + i * P)).take P) := by
  induction k generalizing offset i with
  | zero => omega
  | succ k ih =>
      cases i with
      | zero => simp [paginationLoop]
      | succ i =>
          have hik : i < k := by omega
          simp only [paginationLoop, List.getElem?_cons_succ, ih (offset + P) i hik]
          congr 2
          ring_nf

theorem paginationLoop_getLast? (P : Nat) (l : List α) (offset k : Nat) :
    (paginationLoop P l offset (k + 1)).getLast? =
      some ((l.drop (offset + k * P)).take P) := by
  induction k generalizing offset with
  | zero => simp [paginationLoop]
  | succ k ih =>
      have h1 : paginationLoop P l offset (k + 1 + 1) =
          (l.drop offset).take P :: paginationLoop P l (offset + P) (k + 1) := rfl
      have h2 : paginationLoop P l (offset + P) (k + 1) =
          (l.drop (offset + P)).take P :: paginationLoop P l (offset + P + P) k := rfl
      rw [h1, h2, List.getLast?_cons_cons, ← h2, ih (offset + P)]
      congr 2
      ring_nf

/-! ### Image downscaling (source lines 47-59)

Python's float division and `int()` truncation are modelled twice: by
exact rational arithmetic over `ℚ` with explicit truncation toward zero
(`calculate_reduced_size`, the idealized contract), and bit-accurately by
IEEE-754 binary64 arithmetic with round-to-nearest, ties-to-even
(`calculate_reduced_size_f64`), where every double is represented by the
exact dyadic rational it denotes.  The two disagree: binary64 rounding
makes `int(w / (w / 800))` fall to 799 for some widths (e.g. 805). -/

/-- Python `int(x)`: truncation toward zero. -/
def pyInt (q : ℚ) : ℤ := if 0 ≤ q then ⌊q⌋ else -⌊-q⌋

/-- `calculate_reduced_size(size)` (source lines 56-59):
`horizontal_ratio = size[0] / MAX_HORIZONTAL_SIZE`;
returns `(int(size[0] / horizontal_ratio), int(size[1] / horizontal_ratio))`,
with the float divisions idealized as exact rational divisions.  The
bit-accurate binary64 model of the same three lines is
`calculate_reduced_size_f64` below. -/
def calculate_reduced_size (size : Nat × Nat) : ℤ × ℤ :=
  let horizontal_ratio : ℚ := (size.1 : ℚ) / (MAX_HORIZONTAL_SIZE : ℚ)
  (pyInt ((size.1 : ℚ) / horizontal_ratio), pyInt ((size.2 : ℚ) / horizontal_ratio))

/-- `reduce_image` (source lines 47-53), with the image abstracted to its
pixel size and the `image.save` side effect modelled by the returned
value: `none` means the function returned early and wrote no companion
file; `some s` means a companion file of size `s` was written. -/
def reduce_image (size : Nat × Nat) : Option (ℤ × ℤ) :=
  if size.1 < MAX_HORIZONTAL_SIZE then none
  else some (calculate_reduced_size size)

/-- Number of binary digits of `n` (0 for 0), written with explicit fuel
so that it reduces by `decide`. -/
def bitLenAux : Nat → Nat → Nat
  | 0, _ => 0
  | fuel + 1, n => if n = 0 then 0 else bitLenAux fuel (n / 2) + 1

/-- Number of binary digits of `n`: `2 ^ (bitLen n - 1) ≤ n < 2 ^ bitLen n`
for `n > 0`. -/
def bitLen (n : Nat) : Nat := bitLenAux (n + 1) n

/-- The IEEE-754 binary64 value nearest to the nonnegative rational
`n / d` (round-to-nearest, ties-to-even), for results in the normal
finite range, returned as the exact dyadic rational it denotes, in the
form of a numerator/denominator pair.  The exponent `e` is fixed by
`2 ^ e ≤ n / d < 2 ^ (e + 1)`; the exact significand `(n / d) * 2 ^ (52 - e)`
lies in `[2 ^ 52, 2 ^ 53)` and is rounded to the nearest integer with
ties broken to even.  This reproduces CPython's correctly rounded
`int / int` and `float / float` true division bit-for-bit on the sizes
involved here (no overflow, no subnormals). -/
def roundF64 (n d : Nat) : Nat × Nat :=
  if n = 0 then (0, 1)
  else
    let p := bitLen n
    let q := bitLen d
    let e : Int := if d * 2 ^ p ≤ n * 2 ^ q then (p : Int) - q else (p : Int) - q - 1
    let s : Int := 52 - e
    let bigN := if 0 ≤ s then n * 2 ^ s.toNat else n
    let bigD := if 0 ≤ s then d else d * 2 ^ (-s).toNat
    let lower := bigN / bigD
    let rem := bigN % bigD
    let m :=
      if 2 * rem < bigD then lower
      else if bigD < 2 * rem then lower + 1
      else if lower % 2 = 0 then lower else lower + 1
    if 0 ≤ s then (m, 2 ^ s.toNat) else (m * 2 ^ (-s).toNat, 1)

/-- `calculate_reduced_size` under bit-accurate IEEE-754 binary64
semantics, following source lines 56-59 operation by operation:
`horizontal_ratio` is the double `size[0] / 800` (an integer below
`2 ^ 53` converts to a double exactly, and the division rounds once);
each component is the double `size[_] / horizontal_ratio` (dividing the
exact value `size[_]` by the exact dyadic value of the ratio, rounded
once); `int()` of the nonnegative double `m / 2 ^ k` truncates to
`m / 2 ^ k` in natural division. -/
def calculate_reduced_size_f64 (size : Nat × Nat) : Nat × Nat :=
  let r := roundF64 size.1 MAX_HORIZONTAL_SIZE
  let wq := roundF64 (size.1 * r.2) r.1
  let hq := roundF64 (size.2 * r.2) r.1
  (wq.1 / wq.2, hq.1 / hq.2)

/-! ### Exposure-time formatting -/

/-- Decimal rendering of a natural number (model of Python `str(n)`),
written with explicit fuel so that it reduces by `decide`/`rfl`. -/
def natCharsAux : Nat → Nat → List Char
  | 0, _ => []
  | fuel + 1, n =>
      if n < 10 then [Nat.digitChar n]
      else natCharsAux fuel (n / 10) ++ [Nat.digitChar (n % 10)]

/-- Decimal rendering of a natural number. -/
def natChars (n : Nat) : List Char := natCharsAux (n + 1) n

/-- Modelled from the spec: the rational-tuple exposure-time formatter of
the repository's earlier variant, which is not present in `src/` (the file
in `src/` carries only the later single-float `clean_exposure_time`).
Spec rules: `(1,1) → "1s"`; `(1,d)` with `d ≠ 1` → `"1/{d}s"`; `(n,1)`
with `n ≠ 1` → `"{n}s"`; `(n,d)` with both `≠ 1` → the decimal division
`"{n/d}s"` using default floating-point string conversion.  The last rule
depends on float-to-string rendering, which is outside this embedding, so
the renderer for that branch is taken as a parameter `floatStr`; no claim
exercises that branch. -/
def clean_exposure_time_rational (floatStr : ℚ → List Char) (n d : Nat) : List Char :=
  if n = 1 ∧ d = 1 then ['1', 's']
  else if n = 1 then '1' :: '/' :: natChars d ++ ['s']
  else if d = 1 then natChars n ++ ['s']
  else floatStr ((n : ℚ) / (d : ℚ)) ++ ['s']

/-! ### Picture-record path fields (source lines 84-119) -/

/-- The title computed on source line 111:
`picture_path.rpartition("/")[2][11:].partition(".")[0]`. -/
def analyze_title (picture_path : List Char) : List Char :=
  (pyPartition '.' (((pyRpartition '/' picture_path).2.2).drop 11)).1

/-- `small_picture_path(picture_path)` (source lines 118-119):
`f"{picture_path.rpartition('.')[0]}-{SMALL_IMAGE_WORD}.{picture_path.rpartition('.')[2]}"`. -/
def small_picture_path (picture_path : List Char) : List Char :=
  (pyRpartition '.' picture_path).1 ++
    '-' :: SMALL_IMAGE_WORD ++ '.' :: (pyRpartition '.' picture_path).2.2

/-- The path filter of `analyze_pictures` (source lines 86-88): a scan over
`paths` analyzes exactly the paths not containing `SMALL_IMAGE_WORD` as a
substring (`if SMALL_IMAGE_WORD in picture_path: continue`). -/
def analyzedSourcePaths (paths : List (List Char)) : List (List Char) :=
  paths.filter (fun p => !containsSub SMALL_IMAGE_WORD p)

/-! ### Index pagination metadata (source lines 122-145)

The Python dict built per page is modelled as a structure whose optional
keys are `Option` fields: `none` models the key being absent from the
dict (not a sentinel value). -/

structure PaginationMeta where
  current : Nat
  total : Nat
  previous : Option Nat
  next : Option Nat
deriving DecidableEq, Repr

/-- The pagination dict built for the page of 0-based index `rank` out of
`total` pages (source lines 128-135): `current = rank + 1`; `previous` is
set to `rank - 1` only when `rank > 0`; `next` is set to `rank + 1` only
when `rank != total - 1`. -/
def paginationFor (rank total : Nat) : PaginationMeta :=
  { current := rank + 1
    total := total
    previous := if rank > 0 then some (rank - 1) else none
    next := if rank ≠ total - 1 then some (rank + 1) else none }

/-- `create_html_indexes(pictures)` (source lines 122-145), abstracted to
the pagination metadata it builds: one record per page, in loop order
(the template rendering and file writes are collaborator calls). -/
def create_html_indexes (pages : List (List α)) : List PaginationMeta :=
  (List.range pages.length).map (fun rank => paginationFor rank pages.length)

/-! ### The sort key (source lines 190-192)

`pictures.sort(reverse=True, key=lambda i: i["date"].replace(":", "").replace(" ", ""))`
where the record's `date` field is `f"{exif['DateTime']} (UTC)"`
(source line 106) and the EXIF `DateTime` has the fixed-width zero-padded
form `"YYYY:MM:DD HH:MM:SS"`. -/

/-- The sort key: the date string with every `:` and then every space
removed. -/
def sortKey (date : List Char) : List Char := removeChar ' ' (removeChar ':' date)

/-- A capture timestamp split into its six numeric fields. -/
structure Timestamp where
  y : Nat
  mo : Nat
  d : Nat
  h : Nat
  mi : Nat
  s : Nat
deriving DecidableEq, Repr

/-- The fields fit their fixed widths (4 digits for the year, 2 for the
rest), as the zero-padded `"YYYY:MM:DD HH:MM:SS"` form requires. -/
def validTs (t : Timestamp) : Prop :=
  t.y < 10000 ∧ t.mo < 100 ∧ t.d < 100 ∧ t.h < 100 ∧ t.mi < 100 ∧ t.s < 100

instance (t : Timestamp) : Decidable (validTs t) := by
  unfold validTs; infer_instance

/-- The `w` least-significant decimal digits of `n`, most significant
first: the zero-padded width-`w` rendering of any `n < 10^w`. -/
def padDigits : Nat → Nat → List Char
  | 0, _ => []
  | w + 1, n => Nat.digitChar (n / 10 ^ w) :: padDigits w (n % 10 ^ w)

/-- The record's `date` field for a timestamp in the fixed-width
zero-padded form: `"YYYY:MM:DD HH:MM:SS"` plus the `" (UTC)"` suffix
appended on source line 106. -/
def displayDate (t : Timestamp) : List Char :=
  padDigits 4 t.y ++ ':' :: padDigits 2 t.mo ++ ':' :: padDigits 2 t.d ++
    ' ' :: padDigits 2 t.h ++ ':' :: padDigits 2 t.mi ++ ':' :: padDigits 2 t.s ++
    [' ', '(', 'U', 'T', 'C', ')']

/-- Chronological (strictly earlier) order on timestamps: lexicographic on
(year, month, day, hour, minute, second). -/
def chronLt (t u : Timestamp) : Prop :=
  t.y < u.y ∨ (t.y = u.y ∧ (t.mo < u.mo ∨ (t.mo = u.mo ∧
    (t.d < u.d ∨ (t.d = u.d ∧ (t.h < u.h ∨ (t.h = u.h ∧
      (t.mi < u.mi ∨ (t.mi = u.mi ∧ t.s < u.s)))))))))

instance (t u : Timestamp) : Decidable (chronLt t u) := by
  unfold chronLt; infer_instance

/-! ### Helper lemmas -/

theorem length_lt_div_succ_mul (n P : Nat) (hP : 0 < P) : n < (n / P + 1) * P := by
  have h := Nat.div_add_mod n P
  have h2 := Nat.mod_lt n hP
  calc n = P * (n / P) + n % P := h.symm
    _ < P * (n / P) + P := by omega
    _ = (n / P + 1) * P := by ring

theorem paginationLoop_chunk_length (P : Nat) (l : List α) (offset k : Nat) :
    ∀ c ∈ paginationLoop P l offset k, c.length ≤ P := by
  induction k generalizing offset with
  | zero => simp [paginationLoop]
  | succ k ih =>
      intro c hc
      rcases List.mem_cons.1 hc with hc | hc
      · subst hc
        exact le_trans (List.length_take_le _ _) le_rfl
      · exact ih (offset + P) c hc

/-- C1: for every list of picture records, concatenating in order the
pages returned by `create_pagination` yields exactly the input list —
every record appears exactly once, none is dropped or duplicated, and the
relative order is unchanged across page boundaries. -/
theorem claim_C1_pagination_concat (α : Type) (pictures : List α) :
    (create_pagination pictures).flatten = pictures := by
  unfold create_pagination create_pagination_with
  rw [paginationLoop_flatten, List.drop_zero]
  exact List.take_of_length_le
    (le_of_lt (length_lt_div_succ_mul pictures.length PAGINATION (by decide)))

/-- C2: for every list of `N` picture records and page size `P > 0`,
`create_pagination` returns exactly `N / P + 1` consecutive chunks of at
most `P` records each (chunk `i` is the slice starting at `i * P`); with
page size 6 and 13 pictures there are 3 pages of sizes `[6, 6, 1]`; and
when `N` is an exact multiple of `P` the last page is empty. -/
theorem claim_C2_pagination_shape (α : Type) (l : List α) (P : Nat) (_hP : 0 < P) :
    (create_pagination_with P l).length = l.length / P + 1 ∧
    (∀ c ∈ create_pagination_with P l, c.length ≤ P) ∧
    (∀ i : Nat, i < l.length / P + 1 →
      (create_pagination_with P l)[i]? = some ((l.drop (i * P)).take P)) ∧
    (P ∣ l.length → (create_pagination_with P l).getLast? = some []) ∧
    (create_pagination_with 6 (List.range 13)).map List.length = [6, 6, 1] := by
  refine ⟨paginationLoop_length P l 0 _, paginationLoop_chunk_length P l 0 _, ?_, ?_, by decide⟩
  · intro i hi
    rw [create_pagination_with, paginationLoop_getElem? P l 0 _ i hi, Nat.zero_add]
  · intro hdvd
    rw [create_pagination_with, paginationLoop_getLast?, Nat.zero_add,
      Nat.div_mul_cancel hdvd, List.drop_length, List.take_nil]

/-- Witness for C2 at page size 6 and 13 records. -/
theorem claim_C2_pagination_shape_witness :
    0 < 6 ∧ (create_pagination_with 6 (List.range 13)).length = 13 / 6 + 1 := by
  refine ⟨by decide, ?_⟩
  have h := (claim_C2_pagination_shape ℕ (List.range 13) 6 (by decide)).1
  simpa using h

/-- C6 counterexample: an image of width exactly 800 (at the threshold) is
NOT left untouched — `reduce_image` does not return early, and a companion
file (of the unchanged size) is written. -/
theorem claim_C6_at_threshold_counterexample :
    reduce_image (800, 600) = some (800, 600) := by
  norm_num [reduce_image, calculate_reduced_size, pyInt, MAX_HORIZONTAL_SIZE]

/-- C6 amended: `reduce_image` leaves every image whose horizontal size is
strictly below the 800-pixel threshold untouched (it returns early and
writes no companion file); every image whose width is at least 800 —
including exactly 800 — gets a companion written. -/
theorem claim_C6_reduce_image_threshold (w h : Nat) :
    (reduce_image (w, h) = none ↔ w < 800) ∧
    (800 ≤ w → reduce_image (w, h) = some (calculate_reduced_size (w, h))) := by
  constructor
  · by_cases hw : w < 800 <;>
      simp [reduce_image, MAX_HORIZONTAL_SIZE, hw]
  · intro hw
    simp [reduce_image, MAX_HORIZONTAL_SIZE, Nat.not_lt.2 hw]

/-- Witness for the amended C6. -/
theorem claim_C6_reduce_image_threshold_witness :
    (reduce_image (700, 500) = none ↔ (700 : Nat) < 800) ∧
    reduce_image (900, 600) = some (calculate_reduced_size (900, 600)) :=
  ⟨(claim_C6_reduce_image_threshold 700 500).1,
    (claim_C6_reduce_image_threshold 900 600).2 (by decide)⟩

/-- C4 (spec-modelled): for the rational exposure-time formatter,
`(n, 1)` yields `"{n}s"` and `(1, d)` with `d > 1` yields `"1/{d}s"`;
in particular `(1, 2)` yields `"1/2s"` and `(1, 4)` yields `"1/4s"`.
The `floatStr` parameter (the float renderer of the fourth spec rule) is
arbitrary: none of these cases reaches it. -/
theorem claim_C4_exposure_rational (floatStr : ℚ → List Char) (n d : Nat)
    (hd : 1 < d) :
    clean_exposure_time_rational floatStr n 1 = natChars n ++ ['s'] ∧
    clean_exposure_time_rational floatStr 1 d = '1' :: '/' :: natChars d ++ ['s'] ∧
    clean_exposure_time_rational floatStr 1 2 = ['1', '/', '2', 's'] ∧
    clean_exposure_time_rational floatStr 1 4 = ['1', '/', '4', 's'] := by
  refine ⟨?_, ?_, by rfl, by rfl⟩
  · by_cases hn : n = 1
    · subst hn; rfl
    · simp [clean_exposure_time_rational, hn]
  · have hd1 : d ≠ 1 := by omega
    simp [clean_exposure_time_rational, hd1]

/-- Witness for C4 at `(7, 1)` and `(1, 2)`. -/
theorem claim_C4_exposure_rational_witness :
    clean_exposure_time_rational (fun _ => []) 7 1 = natChars 7 ++ ['s'] ∧
    clean_exposure_time_rational (fun _ => []) 1 2 = '1' :: '/' :: natChars 2 ++ ['s'] :=
  ⟨(claim_C4_exposure_rational (fun _ => []) 7 2 (by decide)).1,
    (claim_C4_exposure_rational (fun _ => []) 7 2 (by decide)).2.1⟩

/-- C5 counterexample: under bit-accurate IEEE-754 binary64 semantics the
claim is false at `(805, 600)` — the program computes `805 / 800` rounded
up to the double `4531747125041562 / 2 ^ 52`, the quotient
`805 / (805 / 800)` then falls just below 800, and `int()` truncates it
to 799, so the returned width is 799, not the claimed
`round(width / (width / 800)) = 800`; the width is not clamped to 800. -/
theorem claim_C5_float_counterexample :
    calculate_reduced_size_f64 (805, 600) = (799, 596) ∧ (799 : Nat) ≠ 800 :=
  ⟨by decide, by decide⟩

/-- C5 amended: for every size whose width exceeds the 800-pixel
threshold, `calculate_reduced_size` computes
`(int(width / ratio), int(height / ratio))` with `ratio = width / 800`;
under the exact-rational idealization of the float arithmetic the width
equals `round(width / (width / 800))` — that is, 800 exactly — and the
height is the exact scaled height truncated (preserving the aspect ratio
up to integer rounding: within one unit of the exact scaled height).  The
claim's example `(1600, 1000)` yields `(800, 500)` both in the
idealization and bit-for-bit under IEEE-754 binary64 semantics; but under
the program's actual binary64 arithmetic the width falls one pixel short
of 800 for some widths, e.g. `(805, 600)` yields `(799, 596)`. -/
theorem claim_C5_reduced_size_amended (w h : Nat) (hw : 800 < w) :
    (calculate_reduced_size (w, h)).1 = round ((w : ℚ) / ((w : ℚ) / 800)) ∧
    (calculate_reduced_size (w, h)).1 = 800 ∧
    ((calculate_reduced_size (w, h)).2 : ℚ) ≤ (h : ℚ) / ((w : ℚ) / 800) ∧
    (h : ℚ) / ((w : ℚ) / 800) - 1 < ((calculate_reduced_size (w, h)).2 : ℚ) ∧
    calculate_reduced_size (1600, 1000) = (800, 500) ∧
    calculate_reduced_size_f64 (1600, 1000) = (800, 500) := by
  have hw0 : (0 : ℚ) < (w : ℚ) := by
    have : 0 < w := by omega
    exact_mod_cast this
  have hratio : (w : ℚ) / ((w : ℚ) / 800) = 800 := by
    rw [div_div_eq_mul_div]
    rw [mul_comm, mul_div_assoc, div_self (ne_of_gt hw0), mul_one]
  have hheight : (0 : ℚ) ≤ (h : ℚ) / ((w : ℚ) / 800) := by positivity
  have hfirst : (calculate_reduced_size (w, h)).1 = 800 := by
    simp only [calculate_reduced_size, MAX_HORIZONTAL_SIZE, Nat.cast_ofNat, pyInt,
      hratio]
    norm_num
  refine ⟨?_, hfirst, ?_, ?_, ?_, ?_⟩
  · rw [hfirst, hratio]
    norm_num
  · have : (calculate_reduced_size (w, h)).2 = ⌊(h : ℚ) / ((w : ℚ) / 800)⌋ := by
      simp only [calculate_reduced_size, MAX_HORIZONTAL_SIZE, Nat.cast_ofNat, pyInt,
        if_pos hheight]
    rw [this]
    exact Int.floor_le _
  · have : (calculate_reduced_size (w, h)).2 = ⌊(h : ℚ) / ((w : ℚ) / 800)⌋ := by
      simp only [calculate_reduced_size, MAX_HORIZONTAL_SIZE, Nat.cast_ofNat, pyInt,
        if_pos hheight]
    rw [this]
    exact Int.sub_one_lt_floor _
  · norm_num [calculate_reduced_size, pyInt, MAX_HORIZONTAL_SIZE]
  · decide

/-- Witness for the amended C5 at `(1600, 1000)`. -/
theorem claim_C5_reduced_size_amended_witness :
    (800 : Nat) < 1600 ∧ calculate_reduced_size (1600, 1000) = (800, 500) ∧
    calculate_reduced_size_f64 (1600, 1000) = (800, 500) :=
  ⟨by decide, (claim_C5_reduced_size_amended 1600 1000 (by decide)).2.2.2.2.1,
    (claim_C5_reduced_size_amended 1600 1000 (by decide)).2.2.2.2.2⟩

/-- C9: in the pagination metadata built for every index page,
`previous` is present iff the page is not the first, `next` is present
iff the page is not the last (absence — `none`, modelling the key being
missing from the dict — signals a boundary, not a sentinel value), and
`current` is 1-based from the first page. -/
theorem claim_C9_pagination_metadata (α : Type) (pages : List (List α)) (rank : Nat)
    (hrank : rank < pages.length) :
    (create_html_indexes pages)[rank]? = some (paginationFor rank pages.length) ∧
    ((paginationFor rank pages.length).previous.isSome ↔ rank ≠ 0) ∧
    ((paginationFor rank pages.length).next.isSome ↔ rank ≠ pages.length - 1) ∧
    (paginationFor rank pages.length).current = rank + 1 ∧
    (rank = 0 → (paginationFor rank pages.length).previous = none) ∧
    (rank = pages.length - 1 → (paginationFor rank pages.length).next = none) := by
  refine ⟨?_, ?_, ?_, rfl, ?_, ?_⟩
  · rw [create_html_indexes, List.getElem?_map, List.getElem?_range hrank,
      Option.map_some']
  · by_cases h0 : 0 < rank <;> simp [paginationFor, h0] <;> omega
  · by_cases hl : rank = pages.length - 1 <;> simp [paginationFor, hl]
  · intro h0
    simp [paginationFor, h0]
  · intro hl
    simp [paginationFor, hl]

/-- Witness for C9: page 1 of 3 (the middle page). -/
theorem claim_C9_pagination_metadata_witness :
    (create_html_indexes ([[0], [1], [2]] : List (List ℕ)))[1]? =
      some (paginationFor 1 3) ∧
    ((paginationFor 1 3).previous.isSome ↔ 1 ≠ 0) ∧
    ((paginationFor 1 3).next.isSome ↔ 1 ≠ 3 - 1) ∧
    (paginationFor 1 3).current = 1 + 1 ∧
    ((1 : Nat) = 0 → (paginationFor 1 3).previous = none) ∧
    ((1 : Nat) = 3 - 1 → (paginationFor 1 3).next = none) :=
  claim_C9_pagination_metadata ℕ [[0], [1], [2]] 1 (by decide)

/-! ### Substring lemmas for C10 -/

theorem startsWith_append_self (n t : List Char) : startsWith n (n ++ t) = true := by
  induction n with
  | nil => rfl
  | cons a as ih => simp [startsWith, ih]

theorem containsSub_self_append (n t : List Char) : containsSub n (n ++ t) = true := by
  cases n with
  | nil => cases t <;> simp [containsSub, startsWith]
  | cons a as =>
      have : (a :: as) ++ t = a :: (as ++ t) := rfl
      rw [this, containsSub]
      have h := startsWith_append_self (a :: as) t
      rw [this] at h
      simp [h]

theorem containsSub_append_left (n z : List Char) (h : containsSub n z = true)
    (x : List Char) : containsSub n (x ++ z) = true := by
  induction x with
  | nil => simpa using h
  | cons a as ih =>
      have : (a :: as) ++ z = a :: (as ++ z) := rfl
      rw [this, containsSub, ih]
      simp

/-- C10: every path produced by `small_picture_path` contains the
substring `"small"`, hence it is matched by the substring filter of
`analyze_pictures` and excluded from every subsequent scan — the property
the presence-based idempotency of the downscale step relies on. -/
theorem claim_C10_small_path_filtered (p : List Char) :
    containsSub SMALL_IMAGE_WORD (small_picture_path p) = true ∧
    ∀ paths : List (List Char), small_picture_path p ∉ analyzedSourcePaths paths := by
  have hmain : containsSub SMALL_IMAGE_WORD (small_picture_path p) = true := by
    rw [small_picture_path]
    have hshape : (pyRpartition '.' p).1 ++
        '-' :: SMALL_IMAGE_WORD ++ '.' :: (pyRpartition '.' p).2.2 =
        ((pyRpartition '.' p).1 ++ ['-']) ++
          (SMALL_IMAGE_WORD ++ '.' :: (pyRpartition '.' p).2.2) := by
      simp
    rw [hshape]
    exact containsSub_append_left _ _
      (containsSub_self_append SMALL_IMAGE_WORD ('.' :: (pyRpartition '.' p).2.2)) _
  refine ⟨hmain, ?_⟩
  intro paths hmem
  rw [analyzedSourcePaths, List.mem_filter] at hmem
  rw [hmain] at hmem
  simpa using hmem.2

/-! ### Title derivation (source line 111) -/

/-- The last path segment, as the claim describes it: everything after the
last `/` (the whole string when there is no `/`). -/
def lastSegment : List Char → List Char
  | [] => []
  | c :: rest =>
      if '/' ∈ rest then lastSegment rest
      else if c = '/' then rest
      else c :: rest

/-- The claim's description of the title: the last path segment with its
first 11 characters dropped and everything from the first `.` onward
removed. -/
def claimTitle (path : List Char) : List Char :=
  ((lastSegment path).drop 11).takeWhile (fun c => c != '.')

theorem pyRpartition_after_eq_lastSegment (s : List Char) :
    (pyRpartition '/' s).2.2 = lastSegment s := by
  induction s with
  | nil => rfl
  | cons c rest ih =>
      by_cases hmem : '/' ∈ rest
      · simp [pyRpartition, lastSegment, hmem, ih]
      · by_cases hc : c = '/'
        · simp [pyRpartition, lastSegment, hmem, hc]
        · simp [pyRpartition, lastSegment, hmem, hc]

theorem takeWhile_ne_of_not_mem (sep : Char) (l : List Char) (h : sep ∉ l) :
    l.takeWhile (fun c => c != sep) = l := by
  induction l with
  | nil => rfl
  | cons a rest ih =>
      have ha : a ≠ sep := by
        intro hc
        exact h (hc ▸ List.mem_cons_self a rest)
      have hrest : sep ∉ rest := fun hc => h (List.mem_cons_of_mem a hc)
      simp [List.takeWhile_cons, ha, ih hrest]

theorem pyPartition_head_eq_takeWhile (sep : Char) (s : List Char) :
    (pyPartition sep s).1 = s.takeWhile (fun c => c != sep) := by
  induction s with
  | nil => rfl
  | cons c rest ih =>
      by_cases hc : c = sep
      · simp [pyPartition, List.takeWhile_cons, hc]
      · by_cases hmem : sep ∈ rest
        · simp [pyPartition, List.takeWhile_cons, hc, hmem, ih]
        · simp [pyPartition, List.takeWhile_cons, hc, hmem,
            takeWhile_ne_of_not_mem sep rest hmem]

/-- C8: for every picture path, the title computed on source line 111
equals the last path segment with its first 11 characters dropped and
everything from the first `.` onward removed; in particular the filename
`"20201231_ab_sunset.jpg"` yields the title `"_sunset"`. -/
theorem claim_C8_title_derivation :
    (∀ path : List Char, analyze_title path = claimTitle path) ∧
    analyze_title
        ['2', '0', '2', '0', '1', '2', '3', '1', '_', 'a', 'b', '_', 's', 'u',
          'n', 's', 'e', 't', '.', 'j', 'p', 'g'] =
      ['_', 's', 'u', 'n', 's', 'e', 't'] := by
  constructor
  · intro path
    rw [analyze_title, claimTitle, pyPartition_head_eq_takeWhile,
      pyRpartition_after_eq_lastSegment]
  · decide

/-! ### Digit-string lemmas for C7 -/

theorem digitChar_lt_iff :
    ∀ a < 10, ∀ b < 10, (Nat.digitChar a < Nat.digitChar b ↔ a < b) := by decide

theorem digitChar_eq_iff :
    ∀ a < 10, ∀ b < 10, (Nat.digitChar a = Nat.digitChar b ↔ a = b) := by decide

theorem digitChar_ne_sep : ∀ a < 10, Nat.digitChar a ≠ ':' ∧ Nat.digitChar a ≠ ' ' := by
  decide

theorem padDigits_ne_sep (w : Nat) :
    ∀ n : Nat, n < 10 ^ w → ∀ c ∈ padDigits w n, c ≠ ':' ∧ c ≠ ' ' := by
  induction w with
  | zero => intro n _ c hc; simp [padDigits] at hc
  | succ w ih =>
      intro n hn c hc
      have hq : n / 10 ^ w < 10 := by
        rw [Nat.div_lt_iff_lt_mul (Nat.pos_pow_of_pos w (by norm_num))]
        calc n < 10 ^ (w + 1) := hn
          _ = 10 * 10 ^ w := by ring
      have hm : n % 10 ^ w < 10 ^ w :=
        Nat.mod_lt n (Nat.pos_pow_of_pos w (by norm_num))
      rcases List.mem_cons.1 hc with hc | hc
      · subst hc
        exact digitChar_ne_sep _ hq
      · exact ih (n % 10 ^ w) hm c hc

theorem removeChar_append (c : Char) (l1 l2 : List Char) :
    removeChar c (l1 ++ l2) = removeChar c l1 ++ removeChar c l2 := by
  induction l1 with
  | nil => rfl
  | cons a t ih => by_cases h : a = c <;> simp [removeChar, h, ih]

theorem removeChar_eq_self (c : Char) (l : List Char) (h : ∀ a ∈ l, a ≠ c) :
    removeChar c l = l := by
  induction l with
  | nil => rfl
  | cons a t ih =>
      have ha : a ≠ c := h a (List.mem_cons_self a t)
      have ht : ∀ a ∈ t, a ≠ c := fun x hx => h x (List.mem_cons_of_mem a hx)
      simp [removeChar, ha, ih ht]

theorem removeChar_cons_self (c : Char) (l : List Char) :
    removeChar c (c :: l) = removeChar c l := by simp [removeChar]

theorem removeChar_cons_ne (c a : Char) (l : List Char) (h : a ≠ c) :
    removeChar c (a :: l) = a :: removeChar c l := by simp [removeChar, h]

/-- The tail `"(UTC)"` after both separators are stripped. -/
def utcTail : List Char := ['(', 'U', 'T', 'C', ')']

theorem sortKey_displayDate (t : Timestamp) (ht : validTs t) :
    sortKey (displayDate t) =
      padDigits 4 t.y ++ (padDigits 2 t.mo ++ (padDigits 2 t.d ++ (padDigits 2 t.h ++
        (padDigits 2 t.mi ++ (padDigits 2 t.s ++ utcTail))))) := by
  obtain ⟨h1, h2, h3, h4, h5, h6⟩ := ht
  have b1 : t.y < 10 ^ 4 := lt_of_lt_of_le h1 (by norm_num)
  have b2 : t.mo < 10 ^ 2 := lt_of_lt_of_le h2 (by norm_num)
  have b3 : t.d < 10 ^ 2 := lt_of_lt_of_le h3 (by norm_num)
  have b4 : t.h < 10 ^ 2 := lt_of_lt_of_le h4 (by norm_num)
  have b5 : t.mi < 10 ^ 2 := lt_of_lt_of_le h5 (by norm_num)
  have b6 : t.s < 10 ^ 2 := lt_of_lt_of_le h6 (by norm_num)
  have colon : ∀ (w n : Nat), n < 10 ^ w →
      removeChar ':' (padDigits w n) = padDigits w n := fun w n hn =>
    removeChar_eq_self ':' (padDigits w n)
      (fun a ha => (padDigits_ne_sep w n hn a ha).1)
  have space : ∀ (w n : Nat), n < 10 ^ w →
      removeChar ' ' (padDigits w n) = padDigits w n := fun w n hn =>
    removeChar_eq_self ' ' (padDigits w n)
      (fun a ha => (padDigits_ne_sep w n hn a ha).2)
  have pass1 : removeChar ':' (displayDate t) =
      padDigits 4 t.y ++ (padDigits 2 t.mo ++ (padDigits 2 t.d ++
        (' ' :: (padDigits 2 t.h ++ (padDigits 2 t.mi ++ (padDigits 2 t.s ++
          [' ', '(', 'U', 'T', 'C', ')'])))))) := by
    rw [displayDate]
    simp only [List.append_assoc, List.cons_append]
    rw [removeChar_append, colon 4 t.y b1, removeChar_cons_self,
      removeChar_append, colon 2 t.mo b2, removeChar_cons_self,
      removeChar_append, colon 2 t.d b3,
      removeChar_cons_ne ':' ' ' _ (by decide),
      removeChar_append, colon 2 t.h b4, removeChar_cons_self,
      removeChar_append, colon 2 t.mi b5, removeChar_cons_self,
      removeChar_append, colon 2 t.s b6,
      show removeChar ':' [' ', '(', 'U', 'T', 'C', ')'] =
        [' ', '(', 'U', 'T', 'C', ')'] from by decide]
  have pass2 : removeChar ' '
      (padDigits 4 t.y ++ (padDigits 2 t.mo ++ (padDigits 2 t.d ++
        (' ' :: (padDigits 2 t.h ++ (padDigits 2 t.mi ++ (padDigits 2 t.s ++
          [' ', '(', 'U', 'T', 'C', ')']))))))) =
      padDigits 4 t.y ++ (padDigits 2 t.mo ++ (padDigits 2 t.d ++ (padDigits 2 t.h ++
        (padDigits 2 t.mi ++ (padDigits 2 t.s ++ utcTail))))) := by
    rw [removeChar_append, space 4 t.y b1,
      removeChar_append, space 2 t.mo b2,
      removeChar_append, space 2 t.d b3, removeChar_cons_self,
      removeChar_append, space 2 t.h b4,
      removeChar_append, space 2 t.mi b5,
      removeChar_append, space 2 t.s b6,
      show removeChar ' ' [' ', '(', 'U', 'T', 'C', ')'] = utcTail from by decide]
  rw [sortKey, pass1, pass2]

theorem lt_of_div_lt_div (k a b : Nat) (h : a / k < b / k) : a < b :=
  Nat.lt_of_div_lt_div h

theorem lt_iff_mod_of_div_eq (k a b : Nat) (h : a / k = b / k) :
    (a < b ↔ a % k < b % k) := by
  have da := Nat.div_add_mod a k
  have db := Nat.div_add_mod b k
  rw [h] at da
  omega

theorem eq_iff_mod_of_div_eq (k a b : Nat) (h : a / k = b / k) :
    (a = b ↔ a % k = b % k) := by
  have da := Nat.div_add_mod a k
  have db := Nat.div_add_mod b k
  rw [h] at da
  omega

theorem pyStrLt_pad (w : Nat) :
    ∀ (a b : Nat), a < 10 ^ w → b < 10 ^ w → ∀ (t u : List Char),
      pyStrLt (padDigits w a ++ t) (padDigits w b ++ u) =
        if a < b then true else if b < a then false else pyStrLt t u := by
  induction w with
  | zero =>
      intro a b ha hb t u
      have ha0 : a = 0 := by simpa using ha
      have hb0 : b = 0 := by simpa using hb
      subst ha0; subst hb0
      simp [padDigits]
  | succ w ih =>
      intro a b ha hb t u
      have hpow : 0 < (10 : Nat) ^ w := Nat.pos_pow_of_pos w (by norm_num)
      have hqa : a / 10 ^ w < 10 := by
        rw [Nat.div_lt_iff_lt_mul hpow]
        calc a < 10 ^ (w + 1) := ha
          _ = 10 * 10 ^ w := by ring
      have hqb : b / 10 ^ w < 10 := by
        rw [Nat.div_lt_iff_lt_mul hpow]
        calc b < 10 ^ (w + 1) := hb
          _ = 10 * 10 ^ w := by ring
      have hma : a % 10 ^ w < 10 ^ w := Nat.mod_lt a hpow
      have hmb : b % 10 ^ w < 10 ^ w := Nat.mod_lt b hpow
      have hshape : ∀ n : Nat, padDigits (w + 1) n ++ t =
          Nat.digitChar (n / 10 ^ w) :: (padDigits w (n % 10 ^ w) ++ t) := by
        intro n; rfl
      rw [show padDigits (w + 1) a ++ t =
          Nat.digitChar (a / 10 ^ w) :: (padDigits w (a % 10 ^ w) ++ t) from rfl,
        show padDigits (w + 1) b ++ u =
          Nat.digitChar (b / 10 ^ w) :: (padDigits w (b % 10 ^ w) ++ u) from rfl]
      rw [pyStrLt]
      rcases Nat.lt_trichotomy (a / 10 ^ w) (b / 10 ^ w) with hq | hq | hq
      · have hdlt : Nat.digitChar (a / 10 ^ w) < Nat.digitChar (b / 10 ^ w) :=
          (digitChar_lt_iff _ hqa _ hqb).2 hq
        have hab : a < b := lt_of_div_lt_div (10 ^ w) a b hq
        simp [hdlt, hab]
      · have hdeq : Nat.digitChar (a / 10 ^ w) = Nat.digitChar (b / 10 ^ w) := by
          rw [hq]
        have hdnlt : ¬ Nat.digitChar (a / 10 ^ w) < Nat.digitChar (b / 10 ^ w) := by
          rw [hdeq]; exact lt_irrefl _
        rw [if_neg hdnlt, if_pos hdeq, ih (a % 10 ^ w) (b % 10 ^ w) hma hmb t u]
        have hiff1 : a < b ↔ a % 10 ^ w < b % 10 ^ w :=
          lt_iff_mod_of_div_eq (10 ^ w) a b hq
        have hiff2 : b < a ↔ b % 10 ^ w < a % 10 ^ w :=
          lt_iff_mod_of_div_eq (10 ^ w) b a hq.symm
        by_cases hab : a % 10 ^ w < b % 10 ^ w
        · simp [hab, hiff1.2 hab]
        · by_cases hba : b % 10 ^ w < a % 10 ^ w
          · have nab : ¬ a < b := fun hc => hab (hiff1.1 hc)
            simp [hab, hba, nab, hiff2.2 hba]
          · have nab : ¬ a < b := fun hc => hab (hiff1.1 hc)
            have nba : ¬ b < a := fun hc => hba (hiff2.1 hc)
            simp [hab, hba, nab, nba]
      · have hdnlt : ¬ Nat.digitChar (a / 10 ^ w) < Nat.digitChar (b / 10 ^ w) := by
          intro hc
          exact absurd ((digitChar_lt_iff _ hqa _ hqb).1 hc) (by omega)
        have hdne : Nat.digitChar (a / 10 ^ w) ≠ Nat.digitChar (b / 10 ^ w) := by
          intro hc
          exact absurd ((digitChar_eq_iff _ hqa _ hqb).1 hc) (by omega)
        have hba : b < a := lt_of_div_lt_div (10 ^ w) b a hq
        have nab : ¬ a < b := by omega
        simp [hdnlt, hdne, hba, nab]

theorem ifchain_iff (a b : Nat) (rb : Bool) (rp : Prop) (h : rb = true ↔ rp) :
    ((if a < b then true else if b < a then false else rb) = true) ↔
      (a < b ∨ (a = b ∧ rp)) := by
  by_cases h1 : a < b
  · simp [h1]
  · by_cases h2 : b < a
    · have hne : a ≠ b := by omega
      simp [h1, h2, hne]
    · have heq : a = b := by omega
      simp [h1, h2, heq, h]

/-- C7: sorting records in descending order by the display-timestamp
string with all `:` and space characters removed is equivalent to
chronological order newest-first: for records whose timestamps are in the
fixed-width zero-padded `"YYYY:MM:DD HH:MM:SS"` form, the Python string
comparison of the sort keys agrees exactly with chronological comparison,
so under the descending sort the record with the later capture date
precedes the other; in particular the key of `"2014:12:27 15:43:55"` is
strictly below the key of `"2014:12:28 09:00:00"`. -/
theorem claim_C7_sort_key_chronological (t u : Timestamp)
    (ht : validTs t) (hu : validTs u) :
    (pyStrLt (sortKey (displayDate t)) (sortKey (displayDate u)) = true ↔
      chronLt t u) ∧
    pyStrLt (sortKey (displayDate ⟨2014, 12, 27, 15, 43, 55⟩))
      (sortKey (displayDate ⟨2014, 12, 28, 9, 0, 0⟩)) = true := by
  constructor
  · obtain ⟨a1, a2, a3, a4, a5, a6⟩ := ht
    obtain ⟨c1, c2, c3, c4, c5, c6⟩ := hu
    have ty : t.y < 10 ^ 4 := lt_of_lt_of_le a1 (by norm_num)
    have tmo : t.mo < 10 ^ 2 := lt_of_lt_of_le a2 (by norm_num)
    have td : t.d < 10 ^ 2 := lt_of_lt_of_le a3 (by norm_num)
    have th : t.h < 10 ^ 2 := lt_of_lt_of_le a4 (by norm_num)
    have tmi : t.mi < 10 ^ 2 := lt_of_lt_of_le a5 (by norm_num)
    have ts : t.s < 10 ^ 2 := lt_of_lt_of_le a6 (by norm_num)
    have uy : u.y < 10 ^ 4 := lt_of_lt_of_le c1 (by norm_num)
    have umo : u.mo < 10 ^ 2 := lt_of_lt_of_le c2 (by norm_num)
    have ud : u.d < 10 ^ 2 := lt_of_lt_of_le c3 (by norm_num)
    have uh : u.h < 10 ^ 2 := lt_of_lt_of_le c4 (by norm_num)
    have umi : u.mi < 10 ^ 2 := lt_of_lt_of_le c5 (by norm_num)
    have us : u.s < 10 ^ 2 := lt_of_lt_of_le c6 (by norm_num)
    rw [sortKey_displayDate t ⟨a1, a2, a3, a4, a5, a6⟩,
      sortKey_displayDate u ⟨c1, c2, c3, c4, c5, c6⟩,
      pyStrLt_pad 4 t.y u.y ty uy, pyStrLt_pad 2 t.mo u.mo tmo umo,
      pyStrLt_pad 2 t.d u.d td ud, pyStrLt_pad 2 t.h u.h th uh,
      pyStrLt_pad 2 t.mi u.mi tmi umi, pyStrLt_pad 2 t.s u.s ts us]
    have i6 : ((if t.s < u.s then true else if u.s < t.s then false
        else pyStrLt utcTail utcTail) = true) ↔ t.s < u.s := by
      rw [ifchain_iff t.s u.s _ False (by decide)]
      simp
    unfold chronLt
    exact ifchain_iff t.y u.y _ _ (ifchain_iff t.mo u.mo _ _
      (ifchain_iff t.d u.d _ _ (ifchain_iff t.h u.h _ _
        (ifchain_iff t.mi u.mi _ _ i6))))
  · decide

/-- Witness for C7 at the claim's example timestamps. -/
theorem claim_C7_sort_key_chronological_witness :
    validTs ⟨2014, 12, 27, 15, 43, 55⟩ ∧ validTs ⟨2014, 12, 28, 9, 0, 0⟩ ∧
    (pyStrLt (sortKey (displayDate ⟨2014, 12, 27, 15, 43, 55⟩))
        (sortKey (displayDate ⟨2014, 12, 28, 9, 0, 0⟩)) = true ↔
      chronLt ⟨2014, 12, 27, 15, 43, 55⟩ ⟨2014, 12, 28, 9, 0, 0⟩) :=
  ⟨by decide, by decide,
    (claim_C7_sort_key_chronological ⟨2014, 12, 27, 15, 43, 55⟩
      ⟨2014, 12, 28, 9, 0, 0⟩ (by decide) (by decide)).1⟩
